/-
Verification of the content-indexing core of Frozen-Blog (`blog.py`).

Shallow embedding: the `Context` class and its `load_pages` / `load_posts` /
`load` methods, and the `Pagination` class, are translated to pure Lean
functions.  A post or page (`Target` in `blog.py`) is a record of its derived
`path`, its metadata and its rendered body.  The metadata mapping is modelled
by the fields `load_posts` actually consults: the `date` value (a comparable
value, modelled as `Int`; `none` when the `'date'` key is absent) and the
`tags` value (`none` when the `'tags'` key is absent).  Python dicts keyed by
strings are modelled as functions out of `String`; Python's `list.sort` with
`key=... , reverse=True` is modelled by Mathlib's stable `insertionSort` on
the relation "has greater-or-equal date".

The fallible step of each load method is the `MetaFiles.load()` scan at the
top of the method (the metadata/body of each file having been rendered by the
scan); every mutation of `self` happens after it.  The scan outcome is passed
in as an explicit argument: `none` models a raise (e.g. root unavailable), in
which case the exception propagates and the method performs no mutation.
-/
import Mathlib

namespace FrozenBlog

/-- The metadata mapping of a post or page, restricted to the keys the
indexing core consults.  `date = none` models a metadata dict without a
`'date'` key; `tags = none` models one without a `'tags'` key (a present but
empty list is `some []`, distinct from `none`). -/
structure Meta where
  date : Option Int
  tags : Option (List String)
  deriving DecidableEq, Repr

/-- Class `Target` from `blog.py`: a loaded content file with its derived `path`
(relative to the root, extension stripped, posix separators), its metadata
and its rendered body. -/
structure Target where
  path : String
  meta : Meta
  body : String
  deriving DecidableEq, Repr

/-- The test `'date' in post.meta` (line 216 of `blog.py`). -/
def Target.hasDate (p : Target) : Bool :=
  p.meta.date.isSome

/-- The value `post.meta['date']`, the sort key of line 221.  Only consulted on posts
that passed the `hasDate` filter; totalised with a default. -/
def Target.dateVal (p : Target) : Int :=
  p.meta.date.getD 0

/-- The value `post.meta['tags']` as iterated by the bucket loop of lines 225-227;
totalised with a default (after `setdefault` the key is always present). -/
def Target.tagsVal (p : Target) : List String :=
  p.meta.tags.getD []

/-- The call `post.meta.setdefault('tags', ['untagged'])` (line 224): stores
`['untagged']` under `'tags'` only when the key is absent; a present value
(even an empty list) is kept. -/
def setdefaultTags (p : Target) : Target :=
  match p.meta.tags with
  | none => { p with meta := { p.meta with tags := some ["untagged"] } }
  | some _ => p

/-- The sort relation of `posts.sort(key = lambda post: post.meta['date'],
reverse = True)` (line 221): `a` may come before `b` iff `a`'s date is
greater or equal.  Python's sort is stable, as is `insertionSort` with this
non-strict relation. -/
def dateGE (a b : Target) : Prop :=
  b.dateVal ≤ a.dateVal

instance : DecidableRel dateGE := fun a b => Int.decLe _ _

instance : IsTotal Target dateGE := ⟨fun a b => le_total b.dateVal a.dateVal⟩

instance : IsTrans Target dateGE := ⟨fun _ _ _ h1 h2 => le_trans h2 h1⟩

/-- A Python dict keyed by strings, modelled as a function; `none` models an
absent key. -/
def StrDict (α : Type) : Type := String → Option α

/-- The empty dict `{}`. -/
def StrDict.empty {α : Type} : StrDict α := fun _ => none

/-- Assignment `d[k] = v`: dict assignment, overwriting any previous binding of `k`. -/
def StrDict.insert {α : Type} (d : StrDict α) (k : String) (v : α) : StrDict α :=
  fun k' => if k' = k then some v else d k'

/-- The loop `for post in ...: posts_by_path[post.path] = post`: build a dict
from a list of targets in order, later bindings overwriting earlier ones. -/
def dictOf (items : List Target) : StrDict Target :=
  items.foldl (fun d p => d.insert p.path p) StrDict.empty

/-- A tag dict `posts_by_tag`, modelled as a function from tag to bucket; the
combination of `setdefault(tag, [])` and missing-key behaviour makes an
absent key indistinguishable from an empty bucket for every consumer, so the
default is the empty list. -/
def TagDict : Type := String → List Target

/-- Lines 226-227: `posts_by_tag.setdefault(tag, [])` followed by
`posts_by_tag[tag].append(post)`. -/
def bucketAppend (m : TagDict) (tag : String) (p : Target) : TagDict :=
  fun k => if k = tag then m tag ++ [p] else m k

/-- The bucket-building loop of lines 223-227, run over the already-sorted,
already-tag-defaulted posts: for each post, for each tag occurrence in its
`tags` list, append the post to that tag's bucket. -/
def buildTags (posts : List Target) : TagDict :=
  posts.foldl (fun m p => p.tagsVal.foldl (fun m tag => bucketAppend m tag p) m)
    (fun _ => [])

/-- The date filter of lines 215-218: keep the targets whose metadata has a
`'date'` key, in discovery order. -/
def datedPosts (items : List Target) : List Target :=
  items.filter fun p => p.hasDate

/-- Line 221: stable sort by date, descending. -/
def sortPosts (l : List Target) : List Target :=
  List.insertionSort dateGE l

/-- The `posts` list published by a successful `load_posts` over scan result
`items`: date-filtered, sorted descending by date, tags defaulted in place. -/
def finalPosts (items : List Target) : List Target :=
  (sortPosts (datedPosts items)).map setdefaultTags

/-- The `posts_by_path` dict published by a successful `load_posts`: built in
discovery order from the dated targets (line 218); the stored objects are the
same ones later mutated by `setdefault`, hence the defaulted tags. -/
def postsByPathOf (items : List Target) : StrDict Target :=
  dictOf ((datedPosts items).map setdefaultTags)

/-- The `posts_by_tag` dict published by a successful `load_posts`. -/
def postsByTagOf (items : List Target) : TagDict :=
  buildTags (finalPosts items)

/-- The `Context` object of `blog.py`: the published collections of pages and
posts. -/
structure Context where
  pages : List Target
  pages_by_path : StrDict Target
  posts : List Target
  posts_by_path : StrDict Target
  posts_by_tag : TagDict

/-- Method `Context.__init__`: empty collections. -/
def Context.init : Context :=
  { pages := [], pages_by_path := StrDict.empty,
    posts := [], posts_by_path := StrDict.empty,
    posts_by_tag := fun _ => [] }

/-- The observable outcome of calling a load method: whether it raised, and
the state of the context when control returns (normally or by exception). -/
structure LoadOutcome where
  raised : Bool
  state : Context

/-- Method `Context.load_pages` (lines 183-199).  `scan = none` models
`self._pages_metafiles.load()` raising: the exception propagates before any
mutation of `self`.  On success the two page structures are replaced together
at lines 198-199. -/
def Context.load_pages (ctx : Context) (scan : Option (List Target)) : LoadOutcome :=
  match scan with
  | none => ⟨true, ctx⟩
  | some items =>
      ⟨false, { ctx with pages := items, pages_by_path := dictOf items }⟩

/-- Method `Context.load_posts` (lines 201-231).  `scan = none` models
`self._posts_metafiles.load()` raising (e.g. root unavailable): the exception
propagates before any mutation of `self`.  On success, lines 229-231 replace
`posts`, `posts_by_path` and `posts_by_tag` together. -/
def Context.load_posts (ctx : Context) (scan : Option (List Target)) : LoadOutcome :=
  match scan with
  | none => ⟨true, ctx⟩
  | some items =>
      ⟨false, { ctx with
          posts := finalPosts items,
          posts_by_path := postsByPathOf items,
          posts_by_tag := postsByTagOf items }⟩

/-- Method `Context.load` (lines 233-236): `self.load_pages()` then
`self.load_posts()`.  There is no exception handling: if `load_pages` raises,
the exception propagates out of `load` and `load_posts` is never invoked. -/
def Context.load (ctx : Context) (pagesScan postsScan : Option (List Target)) :
    LoadOutcome :=
  let r1 := ctx.load_pages pagesScan
  if r1.raised then ⟨true, r1.state⟩
  else
    let r2 := r1.state.load_posts postsScan
    ⟨r2.raised, r2.state⟩

/-- Modelled from the spec: the per-file error record of the Content Loader
(the `MetaFiles` dependency, whose source is not part of this repository).
Spec §4.1/§7: a file-level load error (decode failure, malformed metadata
block, renderer failure) is recorded per file. -/
structure FileError where
  path : String
  message : String
  deriving DecidableEq, Repr

/-- Modelled from the spec: the per-file results of a Content Loader scan
whose root scan succeeded (`MetaFiles` is not under the repository's source).
Spec §4.1: each matching file independently either yields a Content Item or a
per-file load error. -/
def RawFile : Type := Except FileError Target

/-- Modelled from the spec: the batch step of the Content Loader (spec §4.1,
failure policy §7 — a single file's failure must not abort the scan of
remaining files; the loader surfaces a partial result plus a list of
per-file errors).  Good files become items, bad files become recorded
errors; no file aborts the batch. -/
def loadBatch (raws : List RawFile) : List Target × List FileError :=
  (raws.filterMap (fun r => match r with | .ok t => some t | .error _ => none),
   raws.filterMap (fun r => match r with | .ok _ => none | .error e => some e))

/-- Helper for `Pagination.items`: Python slice semantics: normalise an `Int` slice
bound against a list length (negative indices count from the end, then both
ends clamp into `[0, len]`). -/
def pySliceIdx (len : Nat) (i : Int) : Nat :=
  if i < 0 then (i + len).toNat else min i.toNat len

/-- Python's `l[a:b]` on a list. -/
def pySlice {α : Type} (l : List α) (a b : Int) : List α :=
  (l.take (pySliceIdx l.length b)).drop (pySliceIdx l.length a)

namespace Pagination

/-- Property `Pagination.total_pages` (lines 270-273):
`int(math.ceil(len(self.iterable) / self.per_page))`.  The quotient is exact
mathematical division (for every length a Python list can attain, the float
division at line 273 rounds to a value whose ceiling is the exact ceiling),
so the model is ceiling division on naturals. -/
def total_pages (len per_page : Nat) : Nat :=
  (len + per_page - 1) / per_page

/-- Property `Pagination.has_prev` (lines 275-278). -/
def has_prev (page : Int) : Prop :=
  page > 1

/-- Property `Pagination.has_next` (lines 280-283). -/
def has_next (page : Int) (len per_page : Nat) : Prop :=
  page < (total_pages len per_page : Int)

/-- Property `Pagination.items` (lines 285-293): `index = page - 1`;
`offset = index * per_page`; `length = offset + per_page`; return
`self.iterable[offset:length]` with Python slice semantics. -/
def items {α : Type} (iterable : List α) (page per_page : Int) : List α :=
  let index := page - 1
  let offset := index * per_page
  let length := offset + per_page
  pySlice iterable offset length

end Pagination

end FrozenBlog

namespace FrozenBlog

/-! Facts about the tag-defaulting step: it touches only the `'tags'` key. -/

theorem setdefaultTags_path (p : Target) : (setdefaultTags p).path = p.path := by
  cases h : p.meta.tags <;> simp [setdefaultTags, h]

theorem setdefaultTags_date (p : Target) :
    (setdefaultTags p).meta.date = p.meta.date := by
  cases h : p.meta.tags <;> simp [setdefaultTags, h]

theorem setdefaultTags_dateVal (p : Target) :
    (setdefaultTags p).dateVal = p.dateVal := by
  simp [Target.dateVal, setdefaultTags_date]

theorem setdefaultTags_hasDate (p : Target) :
    (setdefaultTags p).hasDate = p.hasDate := by
  simp [Target.hasDate, setdefaultTags_date]

/-! The bucket dict built by the tag loop, in closed form. -/

theorem foldl_bucketAppend (tags : List String) (m : TagDict) (p : Target)
    (t : String) :
    (tags.foldl (fun m tag => bucketAppend m tag p) m) t
      = m t ++ List.replicate (tags.count t) p := by
  induction tags generalizing m with
  | nil => simp
  | cons tag rest ih =>
      rw [List.foldl_cons, ih, List.count_cons]
      by_cases h : tag = t
      · subst h
        simp [bucketAppend, List.replicate_succ, List.append_assoc]
      · have h' : ¬ (t = tag) := fun e => h e.symm
        simp [bucketAppend, h, h']

theorem buildTags_apply_aux (posts : List Target) (m : TagDict) (t : String) :
    (posts.foldl (fun m p => p.tagsVal.foldl (fun m tag => bucketAppend m tag p) m) m) t
      = m t ++ posts.flatMap (fun p => List.replicate (p.tagsVal.count t) p) := by
  induction posts generalizing m with
  | nil => simp
  | cons p rest ih =>
      rw [List.foldl_cons, ih, foldl_bucketAppend, List.flatMap_cons,
        List.append_assoc]

theorem buildTags_apply (posts : List Target) (t : String) :
    buildTags posts t
      = posts.flatMap (fun p => List.replicate (p.tagsVal.count t) p) := by
  rw [buildTags, buildTags_apply_aux]
  simp

theorem mem_buildTags {posts : List Target} {t : String} {p : Target} :
    p ∈ buildTags posts t ↔ p ∈ posts ∧ t ∈ p.tagsVal := by
  rw [buildTags_apply]
  simp only [List.mem_flatMap, List.mem_replicate]
  constructor
  · rintro ⟨q, hq, hn, rfl⟩
    refine ⟨hq, ?_⟩
    rw [← List.count_pos_iff]
    omega
  · rintro ⟨hp, ht⟩
    refine ⟨p, hp, ?_, rfl⟩
    rw [← List.count_pos_iff] at ht
    omega

theorem count_buildTags (posts : List Target) (t : String) (q : Target) :
    (buildTags posts t).count q = posts.count q * (q.tagsVal.count t) := by
  rw [buildTags_apply]
  induction posts with
  | nil => simp
  | cons p rest ih =>
      rw [List.flatMap_cons, List.count_append, ih, List.count_cons,
        List.count_replicate]
      by_cases h : p = q
      · subst h
        simp [Nat.add_mul]
        omega
      · simp [h]

/-! The path dict built by the discovery loop, in closed form. -/

theorem dictOf_append (l : List Target) (x : Target) (k : String) :
    dictOf (l ++ [x]) k = if k = x.path then some x else dictOf l k := by
  rw [dictOf, List.foldl_append]
  rfl

theorem dictOf_eq_none (l : List Target) (k : String)
    (h : k ∉ l.map Target.path) : dictOf l k = none := by
  induction l using List.reverseRecOn with
  | nil => rfl
  | append_singleton l x ih =>
      rw [List.map_append, List.mem_append] at h
      push_neg at h
      rw [dictOf_append, if_neg (by simpa using h.2)]
      exact ih h.1

theorem dictOf_eq_some (l : List Target) (p : Target)
    (hnd : (l.map Target.path).Nodup) (hp : p ∈ l) :
    dictOf l p.path = some p := by
  induction l using List.reverseRecOn with
  | nil => cases hp
  | append_singleton l x ih =>
      rw [List.map_append, List.nodup_append] at hnd
      rw [dictOf_append]
      rcases List.mem_append.mp hp with h | h
      · have hne : p.path ≠ x.path := by
          intro e
          exact hnd.2.2 (List.mem_map_of_mem Target.path h) (by simp [e])
        rw [if_neg hne]
        exact ih hnd.1 h
      · have hx : p = x := by simpa using h
        subst hx
        rw [if_pos rfl]

end FrozenBlog

namespace FrozenBlog

/-! Stability of the descending-date sort: the subsequence of any fixed date
is unchanged by sorting. -/

theorem filter_dateVal_orderedInsert (x : Target) (s : List Target) (d : Int) :
    (List.orderedInsert dateGE x s).filter (fun p => p.dateVal == d)
      = (if x.dateVal = d then [x] else [])
          ++ s.filter (fun p => p.dateVal == d) := by
  induction s with
  | nil =>
      by_cases hx : x.dateVal = d
      · simp [List.orderedInsert, List.filter_singleton, hx]
      · have hb : (x.dateVal == d) = false := beq_eq_false_iff_ne.mpr hx
        simp [List.orderedInsert, List.filter_singleton, hb, hx]
  | cons y ys ih =>
      rw [List.orderedInsert]
      by_cases h : dateGE x y
      · rw [if_pos h]
        by_cases hx : x.dateVal = d <;>
          simp [hx, beq_iff_eq, List.filter_cons]
      · rw [if_neg h]
        simp only [dateGE] at h
        have hlt : x.dateVal < y.dateVal := lt_of_not_le h
        rw [List.filter_cons, ih]
        by_cases hy : y.dateVal = d
        · have hx : ¬ x.dateVal = d := by omega
          simp [hx, hy, beq_iff_eq]
        · simp [hy, beq_iff_eq]

theorem filter_dateVal_sortPosts (l : List Target) (d : Int) :
    (sortPosts l).filter (fun p => p.dateVal == d)
      = l.filter (fun p => p.dateVal == d) := by
  induction l with
  | nil => rfl
  | cons x xs ih =>
      rw [sortPosts, List.insertionSort, filter_dateVal_orderedInsert]
      rw [sortPosts] at ih
      rw [ih, List.filter_cons]
      by_cases hx : x.dateVal = d
      · simp [hx, beq_iff_eq]
      · have hb : (x.dateVal == d) = false := beq_eq_false_iff_ne.mpr hx
        simp [hx, hb]

theorem filter_dateVal_finalPosts (items : List Target) (d : Int) :
    (finalPosts items).filter (fun p => p.dateVal == d)
      = ((datedPosts items).map setdefaultTags).filter (fun p => p.dateVal == d) := by
  have e : ∀ q : Target,
      ((fun p => p.dateVal == d) ∘ setdefaultTags) q
        = (fun (p : Target) => p.dateVal == d) q := by
    intro q
    simp [Function.comp, setdefaultTags_dateVal]
  have h1 : (sortPosts (datedPosts items)).filter
        ((fun p => p.dateVal == d) ∘ setdefaultTags)
      = (sortPosts (datedPosts items)).filter (fun p => p.dateVal == d) :=
    List.filter_congr (fun q _ => e q)
  have h2 : (datedPosts items).filter ((fun p => p.dateVal == d) ∘ setdefaultTags)
      = (datedPosts items).filter (fun p => p.dateVal == d) :=
    List.filter_congr (fun q _ => e q)
  rw [finalPosts, List.filter_map, List.filter_map, h1, h2,
    filter_dateVal_sortPosts]

theorem finalPosts_pairwise (items : List Target) :
    (finalPosts items).Pairwise (fun a b => b.dateVal ≤ a.dateVal) := by
  rw [finalPosts, List.pairwise_map]
  have h := List.sorted_insertionSort dateGE (datedPosts items)
  exact List.Pairwise.imp
    (fun hab => by simpa [dateGE, setdefaultTags_dateVal] using hab) h

/-! Membership in the published posts list. -/

theorem mem_finalPosts_iff (items : List Target) (p : Target) (hp : p ∈ items) :
    setdefaultTags p ∈ finalPosts items ↔ p.hasDate = true := by
  rw [finalPosts]
  constructor
  · intro hmem
    rcases List.mem_map.mp hmem with ⟨q, hq, hqp⟩
    have hqd : q.hasDate = true := by
      rw [sortPosts, List.mem_insertionSort] at hq
      exact (List.mem_filter.mp hq).2
    have : (setdefaultTags q).hasDate = (setdefaultTags p).hasDate := by rw [hqp]
    rw [setdefaultTags_hasDate, setdefaultTags_hasDate] at this
    rw [← this]
    exact hqd
  · intro hd
    refine List.mem_map_of_mem setdefaultTags ?_
    rw [sortPosts, List.mem_insertionSort]
    exact List.mem_filter.mpr ⟨hp, hd⟩

/-! Ceiling-division facts for the pagination model. -/

theorem le_total_pages_mul (len pp : Nat) (h : 1 ≤ pp) :
    len ≤ Pagination.total_pages len pp * pp := by
  rw [Pagination.total_pages]
  have hd := Nat.div_add_mod (len + pp - 1) pp
  have hm : (len + pp - 1) % pp < pp := Nat.mod_lt _ (by omega)
  have hc : pp * ((len + pp - 1) / pp) = ((len + pp - 1) / pp) * pp :=
    Nat.mul_comm _ _
  omega

theorem total_pages_le (len pp m : Nat) (h : 1 ≤ pp) (hm : len ≤ m * pp) :
    Pagination.total_pages len pp ≤ m := by
  rw [Pagination.total_pages]
  have key : len + pp - 1 < (m + 1) * pp := by
    have e : (m + 1) * pp = m * pp + pp := by ring
    omega
  exact Nat.lt_succ_iff.mp ((Nat.div_lt_iff_lt_mul (by omega)).mpr key)

theorem pySliceIdx_of_nonneg (len : Nat) (i : Int) (h : 0 ≤ i) :
    pySliceIdx len i = min i.toNat len := by
  rw [pySliceIdx, if_neg (not_lt.mpr h)]

end FrozenBlog

namespace FrozenBlog

theorem map_path_map_setdefaultTags (l : List Target) :
    (l.map setdefaultTags).map Target.path = l.map Target.path := by
  rw [List.map_map]
  exact List.map_congr_left (fun a _ => setdefaultTags_path a)

theorem postsByPathOf_lookup (items : List Target) (p : Target)
    (hp : p ∈ items) (hnd : (items.map Target.path).Nodup) :
    postsByPathOf items p.path = some (setdefaultTags p) ↔ p.hasDate = true := by
  constructor
  · intro hlook
    by_contra hfd
    have hfd' : p.hasDate = false := by
      revert hfd
      cases p.hasDate <;> simp
    have hnone : postsByPathOf items p.path = none := by
      apply dictOf_eq_none
      rw [map_path_map_setdefaultTags]
      intro hmem
      rcases List.mem_map.mp hmem with ⟨q, hq, hqe⟩
      have hqi : q ∈ items := (List.mem_filter.mp hq).1
      have hqd : q.hasDate = true := (List.mem_filter.mp hq).2
      have hqp : q = p := List.inj_on_of_nodup_map hnd hqi hp hqe
      rw [hqp] at hqd
      rw [hqd] at hfd'
      simp at hfd'
    rw [hnone] at hlook
    simp at hlook
  · intro hd
    rw [postsByPathOf]
    have hmem : setdefaultTags p ∈ (datedPosts items).map setdefaultTags :=
      List.mem_map_of_mem _ (List.mem_filter.mpr ⟨hp, hd⟩)
    have hnd2 : (((datedPosts items).map setdefaultTags).map Target.path).Nodup := by
      rw [map_path_map_setdefaultTags]
      exact List.Nodup.sublist ((List.filter_sublist items).map Target.path) hnd
    have hsome := dictOf_eq_some _ _ hnd2 hmem
    rwa [setdefaultTags_path] at hsome

theorem loadBatch_length (raws : List RawFile) :
    (loadBatch raws).1.length + (loadBatch raws).2.length = raws.length := by
  induction raws with
  | nil => rfl
  | cons r rest ih =>
      cases r with
      | ok t =>
          simp only [loadBatch, List.filterMap_cons, List.length_cons] at ih ⊢
          omega
      | error e =>
          simp only [loadBatch, List.filterMap_cons, List.length_cons] at ih ⊢
          omega

end FrozenBlog

namespace FrozenBlog

/-- C1: when a `load_posts` call fails before completing (the metafiles scan
raises — the only fallible step, which precedes every mutation of `self`),
the previously published `posts`, `posts_by_path` and `posts_by_tag` are
identical to their state before the call, and the call reports the raise; on
a successful call all three structures are replaced together with the values
derived from the freshly scanned items. -/
theorem load_posts_atomicity (ctx : Context) (items : List Target) :
    ((ctx.load_posts none).raised = true ∧
     (ctx.load_posts none).state.posts = ctx.posts ∧
     (ctx.load_posts none).state.posts_by_path = ctx.posts_by_path ∧
     (ctx.load_posts none).state.posts_by_tag = ctx.posts_by_tag) ∧
    ((ctx.load_posts (some items)).raised = false ∧
     (ctx.load_posts (some items)).state.posts = finalPosts items ∧
     (ctx.load_posts (some items)).state.posts_by_path = postsByPathOf items ∧
     (ctx.load_posts (some items)).state.posts_by_tag = postsByTagOf items) :=
  ⟨⟨rfl, rfl, rfl, rfl⟩, ⟨rfl, rfl, rfl, rfl⟩⟩

/-- C2 (loader modelled from the spec, `MetaFiles` not being under the
repository source): for a load pass whose root scan succeeds, every per-file
result is processed — each good file becomes an item and each failing file
becomes one recorded error, aborting nothing — and feeding the items to
`load_posts` raises no exception and publishes a `posts` collection with
exactly one entry per item when every item carries a date. -/
theorem single_file_failure_isolation (ctx : Context) (raws : List RawFile)
    (h : ∀ t ∈ (loadBatch raws).1, t.hasDate = true) :
    (loadBatch raws).1.length + (loadBatch raws).2.length = raws.length ∧
    (ctx.load_posts (some (loadBatch raws).1)).raised = false ∧
    ((ctx.load_posts (some (loadBatch raws).1)).state.posts).length
      = (loadBatch raws).1.length := by
  refine ⟨loadBatch_length raws, rfl, ?_⟩
  show (finalPosts (loadBatch raws).1).length = (loadBatch raws).1.length
  rw [finalPosts, List.length_map, sortPosts, List.length_insertionSort,
    datedPosts, List.filter_eq_self.mpr h]

/-- A concrete scan outcome with five well-formed dated posts and one
malformed file. -/
def rawsSix : List RawFile :=
  [Except.ok ⟨"p1", ⟨some 5, none⟩, "b1"⟩,
   Except.ok ⟨"p2", ⟨some 4, none⟩, "b2"⟩,
   Except.error ⟨"bad", "Invalid metadata, not a dict"⟩,
   Except.ok ⟨"p3", ⟨some 3, none⟩, "b3"⟩,
   Except.ok ⟨"p4", ⟨some 2, none⟩, "b4"⟩,
   Except.ok ⟨"p5", ⟨some 1, none⟩, "b5"⟩]

/-- C2 witness: one malformed post file among five valid ones gives a
published `posts` of exactly 5 entries and exactly one recorded error. -/
theorem single_file_failure_isolation_witness :
    (loadBatch rawsSix).1.length = 5 ∧ (loadBatch rawsSix).2.length = 1 ∧
    ((Context.init.load_posts (some (loadBatch rawsSix).1)).state.posts).length
      = 5 := by
  refine ⟨by decide, by decide, ?_⟩
  have h := single_file_failure_isolation Context.init rawsSix (by decide)
  rw [h.2.2]
  decide

/-- C3: after a successful `load_posts`, the published `posts` sequence is
pairwise sorted by date, descending (so a strictly greater date always
appears strictly earlier), and for every date value the subsequence of posts
with that date equals the corresponding subsequence of the dated items in
their original discovery order — the sort is stable. -/
theorem posts_sorted_by_date_desc_stable (ctx : Context) (items : List Target) :
    ((ctx.load_posts (some items)).state.posts).Pairwise
        (fun a b => b.dateVal ≤ a.dateVal) ∧
    ∀ d : Int,
      ((ctx.load_posts (some items)).state.posts).filter
          (fun p => p.dateVal == d)
        = ((datedPosts items).map setdefaultTags).filter
            (fun p => p.dateVal == d) :=
  ⟨finalPosts_pairwise items, fun d => filter_dateVal_finalPosts items d⟩

/-- C4 counterexample: a post whose `tags` metadata is present but empty
(`some []`) is published in `posts`, yet its `"untagged"` bucket is empty —
`setdefault` fills the default in only when the key is absent, so an empty
tags list puts the post in no bucket, contradicting the claimed defaulting
of "absent or empty" tags. -/
theorem posts_by_tag_empty_tags_counterexample :
    (Context.init.load_posts
        (some [⟨"a", ⟨some 1, some []⟩, "b"⟩])).state.posts
      = [⟨"a", ⟨some 1, some []⟩, "b"⟩] ∧
    (Context.init.load_posts
        (some [⟨"a", ⟨some 1, some []⟩, "b"⟩])).state.posts_by_tag "untagged"
      = [] := by
  exact ⟨rfl, rfl⟩

/-- C4 (amended): after a successful `load_posts`, a post appears in
`posts_by_tag[t]` iff it is present in `posts` and `t` occurs in its `tags`
metadata, where `tags` is defaulted to `["untagged"]` only when the key is
absent (a present empty list leaves the post in no bucket); each bucket is
the posts that carry the tag, in the same relative order as the sorted
`posts` sequence, one occurrence per occurrence of the tag. -/
theorem posts_by_tag_membership (ctx : Context) (items : List Target)
    (t : String) (p : Target) :
    ((ctx.load_posts (some items)).state.posts_by_tag t
        = ((ctx.load_posts (some items)).state.posts).flatMap
            (fun q => List.replicate (q.tagsVal.count t) q)) ∧
    (p ∈ (ctx.load_posts (some items)).state.posts_by_tag t ↔
      p ∈ (ctx.load_posts (some items)).state.posts ∧ t ∈ p.tagsVal) :=
  ⟨buildTags_apply (finalPosts items) t, mem_buildTags⟩

/-- C5: after a successful `load_posts` (over items with pairwise-distinct
paths, which the source filesystem guarantees), a loaded item appears in
`posts` iff its metadata contains a `date` key, its path maps to it in
`posts_by_path` iff it has a `date` key, and an item lacking a date is in no
tag bucket either — exclusion, not an error. -/
theorem posts_inclusion_iff_date (ctx : Context) (items : List Target)
    (p : Target) (hp : p ∈ items) (hnd : (items.map Target.path).Nodup) :
    (setdefaultTags p ∈ (ctx.load_posts (some items)).state.posts ↔
      p.hasDate = true) ∧
    ((ctx.load_posts (some items)).state.posts_by_path p.path
        = some (setdefaultTags p) ↔ p.hasDate = true) ∧
    (p.hasDate = false →
      ∀ t : String,
        setdefaultTags p ∉ (ctx.load_posts (some items)).state.posts_by_tag t) := by
  refine ⟨mem_finalPosts_iff items p hp, postsByPathOf_lookup items p hp hnd, ?_⟩
  intro hfd t hmem
  have hin := (mem_buildTags.mp hmem).1
  have hd := (mem_finalPosts_iff items p hp).mp hin
  rw [hd] at hfd
  simp at hfd

/-- Two posts, one dated and one undated, with distinct paths. -/
def itemsTwo : List Target :=
  [⟨"a", ⟨some 5, none⟩, "ba"⟩, ⟨"b", ⟨none, none⟩, "bb"⟩]

/-- C5 witness: in a concrete two-item load, the dated item is published (in
`posts` and under its path) and the undated item is absent from `posts`,
from `posts_by_path` and from the `"untagged"` bucket. -/
theorem posts_inclusion_iff_date_witness :
    (⟨"a", ⟨some 5, none⟩, "ba"⟩ : Target) ∈ itemsTwo ∧
    (itemsTwo.map Target.path).Nodup ∧
    (setdefaultTags ⟨"a", ⟨some 5, none⟩, "ba"⟩
        ∈ (Context.init.load_posts (some itemsTwo)).state.posts ↔
      Target.hasDate ⟨"a", ⟨some 5, none⟩, "ba"⟩ = true) ∧
    (setdefaultTags ⟨"b", ⟨none, none⟩, "bb"⟩
      ∉ (Context.init.load_posts (some itemsTwo)).state.posts_by_tag "untagged") :=
  ⟨by decide, by decide,
   (posts_inclusion_iff_date Context.init itemsTwo _ (by decide) (by decide)).1,
   (posts_inclusion_iff_date Context.init itemsTwo
      ⟨"b", ⟨none, none⟩, "bb"⟩ (by decide) (by decide)).2.2 (by decide) "untagged"⟩

/-- C6 counterexample: with a failing pages scan and a succeeding posts scan
holding one dated post, `load` propagates the pages exception and leaves
`posts` empty — the posts load is never attempted — although `load_posts`
alone on the same scan would have published the post.  A pages failure does
prevent the posts attempt. -/
theorem load_pages_failure_blocks_posts_counterexample :
    (Context.init.load none (some [⟨"n", ⟨some 1, none⟩, "x"⟩])).raised = true ∧
    (Context.init.load none (some [⟨"n", ⟨some 1, none⟩, "x"⟩])).state.posts
      = [] ∧
    (Context.init.load_posts (some [⟨"n", ⟨some 1, none⟩, "x"⟩])).state.posts
      ≠ [] := by
  refine ⟨rfl, rfl, by decide⟩

/-- C6 (amended): `load` runs `load_pages` then `load_posts` with no
exception handling.  When the pages scan succeeds, `load` behaves exactly as
`load_posts` run on the pages-updated context (so a later posts failure
still leaves the freshly loaded pages in place); when the pages scan raises,
the exception propagates out of `load` with the context unchanged and the
posts load is not attempted. -/
theorem load_sequencing (ctx : Context) (pitems : List Target)
    (postsScan : Option (List Target)) :
    (ctx.load (some pitems) postsScan
        = (ctx.load_pages (some pitems)).state.load_posts postsScan) ∧
    ((ctx.load none postsScan).raised = true ∧
     (ctx.load none postsScan).state = ctx) :=
  ⟨rfl, rfl, rfl⟩

end FrozenBlog

namespace FrozenBlog

/-- C7: for `page ≥ 1` and `per_page ≥ 1`, `Pagination.items` is exactly the
sub-sequence of the iterable starting at offset `(page-1)*per_page` of
length at most `per_page` — whatever elements remain when the range exceeds
the bounds, possibly none; it is a total function, so no error can occur. -/
theorem items_within_contract {α : Type} (l : List α) (page pp : Int)
    (hpage : 1 ≤ page) (hpp : 1 ≤ pp) :
    Pagination.items l page pp
        = (l.drop ((page - 1) * pp).toNat).take pp.toNat ∧
    (Pagination.items l page pp).length ≤ pp.toNat := by
  have h0 : 0 ≤ (page - 1) * pp := mul_nonneg (by omega) (by omega)
  have h1 : 0 ≤ (page - 1) * pp + pp := by omega
  have heq : Pagination.items l page pp
      = (l.drop ((page - 1) * pp).toNat).take pp.toNat := by
    show pySlice l ((page - 1) * pp) ((page - 1) * pp + pp)
        = (l.drop ((page - 1) * pp).toNat).take pp.toNat
    rw [pySlice, pySliceIdx_of_nonneg _ _ h0, pySliceIdx_of_nonneg _ _ h1]
    have ht : l.take (min ((page - 1) * pp + pp).toNat l.length)
        = l.take (((page - 1) * pp + pp).toNat) :=
      List.take_eq_take.mpr (by omega)
    rw [ht]
    rcases le_or_lt ((page - 1) * pp).toNat l.length with hs | hs
    · rw [min_eq_left hs, List.drop_take]
      congr 1
      omega
    · rw [min_eq_right (le_of_lt hs)]
      have hL : (l.take (((page - 1) * pp + pp).toNat)).drop l.length = [] :=
        List.drop_eq_nil_of_le (by rw [List.length_take]; omega)
      have hR : l.drop ((page - 1) * pp).toNat = [] :=
        List.drop_eq_nil_of_le (le_of_lt hs)
      rw [hL, hR, List.take_nil]
  refine ⟨heq, ?_⟩
  rw [heq, List.length_take]
  exact min_le_left _ _

/-- C7 witness: on a 10-element sequence, page 4 with 3 per page is the
sub-sequence at offset 9, namely the single last element. -/
theorem items_within_contract_witness :
    (1 : Int) ≤ 4 ∧ (1 : Int) ≤ 3 ∧
    (Pagination.items (List.range 10) 4 3
        = ((List.range 10).drop ((((4 : Int) - 1) * 3).toNat)).take
            ((3 : Int).toNat) ∧
     (Pagination.items (List.range 10) 4 3).length ≤ (3 : Int).toNat) ∧
    Pagination.items (List.range 10) 4 3 = [9] :=
  ⟨by decide, by decide,
   items_within_contract (List.range 10) 4 3 (by decide) (by decide),
   by decide⟩

/-- C8 counterexample: page `-1` with `per_page = 3` on a 10-element
sequence is out of range (below 1), yet `items` returns the non-empty
`[4, 5, 6]`: the negative offset `-6` and stop `-3` wrap around under
Python slice semantics.  Out-of-range pages below 1 need not yield an empty
result. -/
theorem items_negative_page_counterexample :
    Pagination.items (List.range 10) (-1) 3 = [4, 5, 6] ∧
    (-1 : Int) < 1 ∧
    Pagination.items (List.range 10) (-1) 3 ≠ [] :=
  ⟨by decide, by decide, by decide⟩

/-- C8 (amended): for `per_page ≥ 1` and a page number beyond `total_pages`,
`items` yields an empty result — no clamping and no error.  (For page
numbers below 1 the result can be non-empty: Python's negative slice
indexing wraps around, see the counterexample.) -/
theorem items_beyond_last_page_empty {α : Type} (l : List α) (page pp : Int)
    (hpp : 1 ≤ pp)
    (hpage : (Pagination.total_pages l.length pp.toNat : Int) < page) :
    Pagination.items l page pp = [] := by
  have hppn : 1 ≤ pp.toNat := by omega
  have hA : l.length ≤ Pagination.total_pages l.length pp.toNat * pp.toNat :=
    le_total_pages_mul _ _ hppn
  have hppc : ((pp.toNat : Nat) : Int) = pp := Int.toNat_of_nonneg (by omega)
  have hcast : (l.length : Int)
      ≤ (Pagination.total_pages l.length pp.toNat : Int) * pp := by
    calc (l.length : Int)
        ≤ ((Pagination.total_pages l.length pp.toNat * pp.toNat : Nat) : Int) := by
          exact_mod_cast hA
      _ = (Pagination.total_pages l.length pp.toNat : Int) * ((pp.toNat : Nat) : Int) := by
          push_cast
          ring
      _ = (Pagination.total_pages l.length pp.toNat : Int) * pp := by rw [hppc]
  have hofs : (l.length : Int) ≤ (page - 1) * pp := by
    have hle : (Pagination.total_pages l.length pp.toNat : Int) ≤ page - 1 := by
      omega
    have hmul : (Pagination.total_pages l.length pp.toNat : Int) * pp
        ≤ (page - 1) * pp := mul_le_mul_of_nonneg_right hle (by omega)
    omega
  have h0 : 0 ≤ (page - 1) * pp := by omega
  show pySlice l ((page - 1) * pp) ((page - 1) * pp + pp) = []
  rw [pySlice, pySliceIdx_of_nonneg _ _ h0,
    pySliceIdx_of_nonneg _ _ (by omega : 0 ≤ (page - 1) * pp + pp)]
  have hmin : min ((page - 1) * pp).toNat l.length = l.length := by omega
  rw [hmin]
  exact List.drop_eq_nil_of_le (by rw [List.length_take]; omega)

/-- C8 witness: on the 10-element sequence, page 5 with 3 per page (one past
the last page, 4) yields the empty sequence. -/
theorem items_beyond_last_page_empty_witness :
    (1 : Int) ≤ 3 ∧
    ((Pagination.total_pages (List.range 10).length ((3 : Int).toNat)) : Int) < 5 ∧
    Pagination.items (List.range 10) 5 3 = [] :=
  ⟨by decide, by decide,
   items_beyond_last_page_empty (List.range 10) 5 3 (by decide) (by decide)⟩

/-- C9: for `per_page ≥ 1`, `total_pages` is the exact integer ceiling of
`length / per_page` — the least number of pages covering all items — and in
particular `total_pages 10 3 = 4` and `total_pages 0 per_page = 0`. -/
theorem total_pages_exact_ceiling (len pp : Nat) (h : 1 ≤ pp) :
    (len ≤ Pagination.total_pages len pp * pp ∧
     ∀ m : Nat, len ≤ m * pp → Pagination.total_pages len pp ≤ m) ∧
    Pagination.total_pages 10 3 = 4 ∧ Pagination.total_pages 0 pp = 0 := by
  refine ⟨⟨le_total_pages_mul len pp h,
    fun m hm => total_pages_le len pp m h hm⟩, by decide, ?_⟩
  rw [Pagination.total_pages]
  exact Nat.div_eq_of_lt (by omega)

/-- C9 witness: at length 10 and 3 per page, `total_pages` is 4: it covers
the 10 items and is minimal among page counts covering them. -/
theorem total_pages_exact_ceiling_witness :
    1 ≤ 3 ∧ Pagination.total_pages 10 3 = 4 ∧
    10 ≤ Pagination.total_pages 10 3 * 3 ∧
    Pagination.total_pages 10 3 ≤ 4 ∧ Pagination.total_pages 0 3 = 0 :=
  ⟨by decide,
   (total_pages_exact_ceiling 10 3 (by decide)).2.1,
   (total_pages_exact_ceiling 10 3 (by decide)).1.1,
   (total_pages_exact_ceiling 10 3 (by decide)).1.2 4 (by decide),
   (total_pages_exact_ceiling 0 3 (by decide)).2.2⟩

/-- C10: after a successful `load_posts`, a post's number of occurrences in
the bucket `posts_by_tag[t]` is its number of occurrences in `posts` times
the number of occurrences of `t` in its `tags` list — the bucket loop
appends once per list occurrence, so a duplicated tag duplicates the post in
that bucket. -/
theorem posts_by_tag_occurrences (ctx : Context) (items : List Target)
    (t : String) (p : Target) :
    ((ctx.load_posts (some items)).state.posts_by_tag t).count p
      = ((ctx.load_posts (some items)).state.posts).count p
          * (p.tagsVal.count t) :=
  count_buildTags (finalPosts items) t p

end FrozenBlog
